import Mathlib

/-!
Verification development for the NCF (neural collaborative filtering)
recommender notebook.  The repository ships the driver notebook
(`notebooks/02_model/ncf_deep_dive.ipynb`); its evaluation loops and the
full-ranking candidate construction are embedded below directly from the
notebook's code cells.  The library the notebook calls
(`reco_utils/recommender/ncf`) is not part of the sources, so the
`Dataset` loaders, negative sampler, model forward pass and checkpoint
blender are modelled from the specification, each marked as such in its
doc comment.
-/

/-- A row of the `train`/`test` tables: `(userID, itemID, rating)`.
The `timestamp` column is consumed only by the upstream chronological
splitter and is dropped here. -/
structure Rating where
  userID : ℕ
  itemID : ℕ
  rating : ℚ
deriving DecidableEq

/-- A (userIndex, itemIndex, label) triple as produced by the loaders;
labels are 1 for positives and 0 for sampled negatives. -/
structure Interaction where
  user : ℕ
  item : ℕ
  label : ℕ
deriving DecidableEq

/-! ### Leave-one-out evaluation loop (notebook section 3.4.3)

The code cell reads:
```
for b in data.test_loader():
    user_input, item_input, labels = b
    output = model.predict(user_input, item_input, is_list=True)
    output = np.squeeze(output)
    rank = sum(output >= output[0])
    if rank <= k:
        ndcgs.append(1 / np.log(rank + 1))
        hit_ratio.append(1)
    else:
        ndcgs.append(0)
        hit_ratio.append(0)
eval_ndcg = np.mean(ndcgs)
eval_hr = np.mean(hit_ratio)
```
`np.log` is the natural logarithm.  Scores are modelled as rationals
(all comparisons in the code are order comparisons); the NDCG
accumulator is real-valued because of the logarithm. -/

/-- `rank = sum(output >= output[0])`: the number of entries of `output`
that are at least the first entry (the held-out positive's score).
`output[0]` on the empty list is modelled by `headD 0`; the loop only
ever receives nonempty samples. -/
def looRank (output : List ℚ) : ℕ :=
  output.countP (fun s => decide (output.headD 0 ≤ s))

/-- One iteration of the leave-one-out loop body: given the accumulated
`(ndcgs, hit_ratio)` lists and the model outputs for one test sample,
append that sample's NDCG and hit contributions. -/
noncomputable def looStep (k : ℕ) (acc : List ℝ × List ℚ) (output : List ℚ) :
    List ℝ × List ℚ :=
  let rank := looRank output
  if rank ≤ k then
    (acc.1 ++ [1 / Real.log ((rank : ℝ) + 1)], acc.2 ++ [1])
  else
    (acc.1 ++ [0], acc.2 ++ [0])

/-- `np.mean` over a real list: the arithmetic mean for a nonempty list;
`np.mean([])` is NaN (0/0), modelled as `none`. -/
noncomputable def npMeanR (xs : List ℝ) : Option ℝ :=
  if xs.isEmpty then none else some (xs.sum / (xs.length : ℝ))

/-- `np.mean` over a rational list; `none` models the NaN returned on an
empty list. -/
def npMeanQ (xs : List ℚ) : Option ℚ :=
  if xs.isEmpty then none else some (xs.sum / (xs.length : ℚ))

/-- The whole leave-one-out evaluation cell: fold the loop body over the
per-sample model outputs, then report `(np.mean(ndcgs), np.mean(hit_ratio))`. -/
noncomputable def looEval (k : ℕ) (outputs : List (List ℚ)) :
    Option ℝ × Option ℚ :=
  let acc := outputs.foldl (looStep k) ([], [])
  (npMeanR acc.1, npMeanQ acc.2)

/-! ### Full-ranking candidate construction (notebook section 3.4.2)

The code cell reads:
```
item = list(train.itemID.unique())
for user in train.userID.unique():
    users.extend([user] * len(item)); items.extend(item)
    preds.extend(list(model.predict(user, item, is_list=True)))
all_predictions = pd.DataFrame(users, items, preds)
merged = pd.merge(train, all_predictions, on=["userID", "itemID"], how="outer")
all_predictions = merged[merged.rating.isnull()].drop('rating', axis=1)
```
The outer merge attaches each training row's rating to the matching
cross-product row; rows of `train` have their user in
`train.userID.unique()` and item in `train.itemID.unique()`, hence every
training pair matches a cross-product row and the unmatched-left side of
the outer merge is empty (and would carry a non-null rating, removed by
the `isnull` filter, in any case). -/

/-- `train.userID.unique()` in first-occurrence order. -/
def uniqueUsers (train : List Rating) : List ℕ :=
  (train.map (·.userID)).dedup

/-- `train.itemID.unique()` in first-occurrence order. -/
def uniqueItems (train : List Rating) : List ℕ :=
  (train.map (·.itemID)).dedup

/-- The rating the outer merge attaches to pair `(u, i)`: the rating of
a matching training row, or null (`none`) when the user never rated the
item in the training split. -/
def lookupRating (train : List Rating) (u i : ℕ) : Option ℚ :=
  (train.find? (fun t => t.userID == u && t.itemID == i)).map (·.rating)

/-- The scored cross product `train.userID.unique() × train.itemID.unique()`
with the merged rating column attached. -/
def mergedPredictions (train : List Rating) (score : ℕ → ℕ → ℚ) :
    List (ℕ × ℕ × ℚ × Option ℚ) :=
  (uniqueUsers train).flatMap (fun u =>
    (uniqueItems train).map (fun i => (u, i, score u i, lookupRating train u i)))

/-- `all_predictions`: the cross-product rows whose rating is null —
pairs absent from the training table — with the rating column dropped. -/
def allPredictions (train : List Rating) (score : ℕ → ℕ → ℚ) :
    List (ℕ × ℕ × ℚ) :=
  ((mergedPredictions train score).filter (fun r => r.2.2.2.isNone)).map
    (fun r => (r.1, r.2.1, r.2.2.1))

/-- The training PositiveSet of user `u`: the items `u` interacted with
in the training split. -/
def positiveSet (train : List Rating) (u : ℕ) : List ℕ :=
  (train.filter (fun t => t.userID == u)).map (·.itemID)

/-- Modelled from the spec: the ranking step inside the external metric
helpers (`map_at_k` and friends, not part of the sources) — insert a
scored row into a list sorted descending by score. -/
def insertDesc (x : ℕ × ℕ × ℚ) : List (ℕ × ℕ × ℚ) → List (ℕ × ℕ × ℚ)
  | [] => [x]
  | y :: ys => if y.2.2 ≤ x.2.2 then x :: y :: ys else y :: insertDesc x ys

/-- Modelled from the spec: rank candidate rows descending by predicted
score (insertion sort; the spec leaves the tie-break implementation-defined
but deterministic). -/
def rankDesc : List (ℕ × ℕ × ℚ) → List (ℕ × ℕ × ℚ)
  | [] => []
  | x :: xs => insertDesc x (rankDesc xs)

/-- A candidate list is sorted descending by score. -/
def sortedDesc (l : List (ℕ × ℕ × ℚ)) : Prop :=
  l.Pairwise (fun a b => b.2.2 ≤ a.2.2)

/-! ### Dataset, negative sampler and loaders

Modelled from the spec: the `Dataset` class (`reco_utils/recommender/ncf/dataset.py`)
is not among the sources — the notebook only constructs it
(`NCFDataset(train=train, test=test, seed=123)`) and iterates its
loaders.  The spec mandates: a caller-supplied seeded random source
threaded through all sampling and shuffling; rejection sampling that
re-rolls on collision with the user's PositiveSet and reports exhaustion
rather than looping; `train_loader(batchSize, shuffle)` pairing every
positive with freshly sampled negatives, optionally shuffling, then
chunking; `test_loader()` yielding one sample per held-out positive,
positive triple first. -/

/-- Modelled from the spec: the seeded deterministic random source
("thread an explicit RNG handle … seed is part of the Dataset's
identity").  A linear congruential generator on 31-bit state. -/
structure RNG where
  state : ℕ
deriving DecidableEq

/-- Advance the generator one step. -/
def rngNext (r : RNG) : ℕ × RNG :=
  let s := (r.state * 1103515245 + 12345) % 2 ^ 31
  (s, ⟨s⟩)

/-- Draw a value uniformly below `n` (for `0 < n`). -/
def rngBelow (r : RNG) (n : ℕ) : ℕ × RNG :=
  let (s, r1) := rngNext r
  (s % n, r1)

/-- Modelled from the spec: one rejection-sampling draw of a negative
item for a user with positive-item list `pos` — re-roll on collision,
give up (`none`, the SamplingExhaustion condition) when `fuel` draws
all collided. -/
def sampleNeg (nItems : ℕ) (pos : List ℕ) : ℕ → RNG → Option (ℕ × RNG)
  | 0, _ => none
  | fuel + 1, r =>
    let (j, r1) := rngBelow r nItems
    if j ∈ pos then sampleNeg nItems pos fuel r1 else some (j, r1)

/-- Modelled from the spec: draw `n` negative items for one positive
instance (`n_neg` of §4.1), threading the generator. -/
def sampleNegs (nItems : ℕ) (pos : List ℕ) (fuel : ℕ) :
    ℕ → RNG → Option (List ℕ × RNG)
  | 0, r => some ([], r)
  | n + 1, r =>
    match sampleNeg nItems pos fuel r with
    | none => none
    | some (j, r1) =>
      match sampleNegs nItems pos fuel n r1 with
      | none => none
      | some (js, r2) => some (j :: js, r2)

/-- Modelled from the spec: the `Dataset(train, test, seed)` construction —
the seed parameterizes all randomness of the instance. -/
structure NCFData where
  train : List Rating
  test : List Rating
  seed : ℕ
deriving DecidableEq

/-- The item-index count the sampler draws from (the Index Mapper's item
count; item indices are dense in `[0, nItems)`). -/
def nItems (d : NCFData) : ℕ :=
  (uniqueItems d.train).length

/-- Remove and return the element at position `k`. -/
def pickOut {α : Type} (xs : List α) (k : ℕ) : Option (α × List α) :=
  match xs.get? k with
  | none => none
  | some a => some (a, xs.eraseIdx k)

/-- Modelled from the spec: seeded global shuffle of the flattened epoch
(draw a random position, move that element to the front, recurse). -/
def shuffleGo {α : Type} : ℕ → RNG → List α → List α × RNG
  | 0, r, xs => (xs, r)
  | n + 1, r, xs =>
    let (k, r1) := rngBelow r xs.length
    match pickOut xs k with
    | none => (xs, r1)
    | some (a, rest) =>
      let (tail, r2) := shuffleGo n r1 rest
      (a :: tail, r2)

/-- Chunking worker with an explicit structural fuel (each step consumes
at least one element, so a fuel of the list length is never exhausted). -/
def chunkGo {α : Type} (bs : ℕ) : ℕ → List α → List (List α)
  | _, [] => []
  | 0, x :: xs => [x :: xs]
  | n + 1, x :: xs =>
    (x :: xs).take (max bs 1) :: chunkGo bs n ((x :: xs).drop (max bs 1))

/-- Chunk a list into batches of `bs` (the final batch may be shorter);
a zero batch size is treated as 1. -/
def chunk {α : Type} (bs : ℕ) (l : List α) : List (List α) :=
  chunkGo bs l.length l

/-- Modelled from the spec: flatten one epoch — every training positive
`(u, i)` contributes its positive triple followed by `n_neg` freshly
sampled negative triples. -/
def trainRows (d : NCFData) (n_neg fuel : ℕ) :
    RNG → List Rating → Option (List Interaction × RNG)
  | r, [] => some ([], r)
  | r, t :: ts =>
    match sampleNegs (nItems d) (positiveSet d.train t.userID) fuel n_neg r with
    | none => none
    | some (js, r1) =>
      match trainRows d n_neg fuel r1 ts with
      | none => none
      | some (rest, r2) =>
        some ((⟨t.userID, t.itemID, 1⟩ :: js.map (fun j => ⟨t.userID, j, 0⟩))
              ++ rest, r2)

/-- Modelled from the spec: `train_loader(batch_size, shuffle)` — flatten
the epoch, optionally shuffle globally with the seeded generator, chunk
into batches.  `none` reports sampling exhaustion. -/
def trainLoader (d : NCFData) (batchSize n_neg fuel : ℕ) (shuffle : Bool) :
    Option (List (List Interaction)) :=
  match trainRows d n_neg fuel ⟨d.seed⟩ d.train with
  | none => none
  | some (rows, r1) =>
    let rows1 := if shuffle then (shuffleGo rows.length r1 rows).1 else rows
    some (chunk batchSize rows1)

/-- Modelled from the spec: one EvaluationSample per held-out positive —
the positive triple first, then `n_neg` sampled negatives (typically 100),
drawn once and cached. -/
def testSamples (d : NCFData) (n_neg fuel : ℕ) :
    RNG → List Rating → Option (List (List Interaction) × RNG)
  | r, [] => some ([], r)
  | r, t :: ts =>
    match sampleNegs (nItems d) (positiveSet d.train t.userID) fuel n_neg r with
    | none => none
    | some (js, r1) =>
      match testSamples d n_neg fuel r1 ts with
      | none => none
      | some (rest, r2) =>
        some ((⟨t.userID, t.itemID, 1⟩ :: js.map (fun j => ⟨t.userID, j, 0⟩))
              :: rest, r2)

/-- Modelled from the spec: `test_loader()` over the held-out test split. -/
def testLoader (d : NCFData) (n_neg fuel : ℕ) :
    Option (List (List Interaction)) :=
  (testSamples d n_neg fuel ⟨d.seed⟩ d.test).map (·.1)

/-! ### Model: branches, fusion head, checkpointing

Modelled from the spec and the notebook's formulas (sections 1.1–1.3 and
3.5): `reco_utils/recommender/ncf/ncf_singlenode.py` is not among the
sources.  The notebook states the formulas: GMF
`r = sigma(h^T (q ⊙ p))`, MLP hidden layers `a(W^T z + b)` with a free
choice of activation, fused prediction
`r = sigma(h^T [phi_GMF; phi_MLP])`, and the pre-training blend
`h_NCF = [alpha h_GMF; (1 - alpha) h_MLP]`. -/

/-- The output activation `sigma(x) = 1 / (1 + exp(-x))` (notebook
section 1.2: chosen to restrict predicted scores to (0,1)). -/
noncomputable def sigmoid (x : ℝ) : ℝ :=
  1 / (1 + Real.exp (-x))

/-- The hidden-layer activation options the spec lists for the deep
branch (sigmoid / tanh / rectified linear). -/
inductive Activation : Type
  | sigm : Activation
  | tanh : Activation
  | relu : Activation

/-- Apply a hidden-layer activation. -/
noncomputable def Activation.app : Activation → ℝ → ℝ
  | .sigm => sigmoid
  | .tanh => Real.tanh
  | .relu => fun x => max x 0

/-- Dot product of two parameter vectors. -/
noncomputable def dot (xs ys : List ℝ) : ℝ :=
  (List.zipWith (fun a b => a * b) xs ys).sum

/-- Elementwise product of two embedding vectors. -/
noncomputable def hadamard (xs ys : List ℝ) : List ℝ :=
  List.zipWith (fun a b => a * b) xs ys

/-- One affine layer `W^T z + b` of the deep branch. -/
noncomputable def affineLayer (W : List (List ℝ)) (b : List ℝ) (z : List ℝ) :
    List ℝ :=
  List.zipWith (fun row bi => dot row z + bi) W b

/-- The three architecture variants resolved at model construction. -/
inductive ModelType : Type
  | GMF : ModelType
  | MLP : ModelType
  | NeuMF : ModelType
deriving DecidableEq

/-- Modelled from the spec: the model's parameter state — per-branch
embedding tables (rows indexed by dense user/item index), the deep
branch's layer parameters, the activation choice, and the fusion head's
output vector `h`. -/
structure NCFModel where
  mtype : ModelType
  gmfUserEmb : List (List ℝ)
  gmfItemEmb : List (List ℝ)
  mlpUserEmb : List (List ℝ)
  mlpItemEmb : List (List ℝ)
  mlpLayers : List (List (List ℝ) × List ℝ)
  act : Activation
  hOut : List ℝ

/-- Embedding lookup for a dense index. -/
def embRow (table : List (List ℝ)) (i : ℕ) : List ℝ :=
  table.getD i []

/-- The bilinear branch's interaction vector `phi_GMF = p_u ⊙ q_i`. -/
noncomputable def gmfVector (m : NCFModel) (u i : ℕ) : List ℝ :=
  hadamard (embRow m.gmfUserEmb u) (embRow m.gmfItemEmb i)

/-- The deep branch's final hidden vector: concatenated embeddings pushed
through the stacked affine-plus-activation layers. -/
noncomputable def mlpVector (m : NCFModel) (u i : ℕ) : List ℝ :=
  m.mlpLayers.foldl
    (fun z Wb => (affineLayer Wb.1 Wb.2 z).map m.act.app)
    (embRow m.mlpUserEmb u ++ embRow m.mlpItemEmb i)

/-- The fusion head's forward score for the three variants (notebook
formulas 1.1–1.3): a sigmoid of `h`-weighted branch output(s). -/
noncomputable def forwardScore (m : NCFModel) (u i : ℕ) : ℝ :=
  match m.mtype with
  | .GMF => sigmoid (dot m.hOut (gmfVector m u i))
  | .MLP => sigmoid (dot m.hOut (mlpVector m u i))
  | .NeuMF => sigmoid (dot m.hOut (gmfVector m u i ++ mlpVector m u i))

/-- Modelled from the spec: the checkpoint `save(dir)` writes — all
current parameters (embeddings, branch layers, output vector), each in
its own slot of the checkpoint directory.  The layout is
implementation-defined but must round-trip every parameter needed to
reproduce predictions. -/
structure SavedParams where
  mtype : ModelType
  gmfUserEmb : List (List ℝ)
  gmfItemEmb : List (List ℝ)
  mlpUserEmb : List (List ℝ)
  mlpItemEmb : List (List ℝ)
  mlpLayers : List (List (List ℝ) × List ℝ)
  act : Activation
  hOut : List ℝ

/-- Modelled from the spec: `save(dir)` — write out every parameter. -/
def saveModel (m : NCFModel) : SavedParams :=
  ⟨m.mtype, m.gmfUserEmb, m.gmfItemEmb, m.mlpUserEmb, m.mlpItemEmb,
   m.mlpLayers, m.act, m.hOut⟩

/-- Modelled from the spec: restoring a single-branch checkpoint into a
model of the same architecture. -/
def loadModel (c : SavedParams) : NCFModel :=
  ⟨c.mtype, c.gmfUserEmb, c.gmfItemEmb, c.mlpUserEmb, c.mlpItemEmb,
   c.mlpLayers, c.act, c.hOut⟩

/-- Modelled from the spec: `load(gmfDir, mlpDir, alpha)` on a fused
model — restore the bilinear branch's parameters from the GMF
checkpoint, the deep branch's from the MLP checkpoint, and set the fused
output vector `h_fused = concat(alpha * h_gmf, (1 - alpha) * h_mlp)`. -/
noncomputable def loadNeuMF (gmf mlp : SavedParams) (alpha : ℝ) : NCFModel :=
  { mtype := ModelType.NeuMF
    gmfUserEmb := gmf.gmfUserEmb
    gmfItemEmb := gmf.gmfItemEmb
    mlpUserEmb := mlp.mlpUserEmb
    mlpItemEmb := mlp.mlpItemEmb
    mlpLayers := mlp.mlpLayers
    act := mlp.act
    hOut := gmf.hOut.map (fun x => alpha * x)
            ++ mlp.hOut.map (fun x => (1 - alpha) * x) }

/-! ### Helper lemmas -/

theorem looRank_cons (p : ℚ) (rest : List ℚ) :
    looRank (p :: rest) = 1 + rest.countP (fun s => decide (p ≤ s)) := by
  simp [looRank, List.countP_cons]
  omega

theorem foldl_looStep (k : ℕ) (outputs : List (List ℚ)) :
    ∀ acc : List ℝ × List ℚ,
      outputs.foldl (looStep k) acc =
        (acc.1 ++ outputs.map
          (fun o => if looRank o ≤ k then 1 / Real.log ((looRank o : ℝ) + 1) else 0),
         acc.2 ++ outputs.map
          (fun o => if looRank o ≤ k then (1 : ℚ) else 0)) := by
  induction outputs with
  | nil => intro acc; simp
  | cons o os ih =>
    intro acc
    rw [List.foldl_cons, ih]
    by_cases h : looRank o ≤ k <;>
      simp [looStep, h, List.append_assoc]

theorem sampleNeg_some (nI : ℕ) (pos : List ℕ) :
    ∀ (fuel : ℕ) (r : RNG) (j : ℕ) (r1 : RNG),
      sampleNeg nI pos fuel r = some (j, r1) →
        (0 < nI → j < nI) ∧ j ∉ pos := by
  intro fuel
  induction fuel with
  | zero => intro r j r1 h; simp [sampleNeg] at h
  | succ n ih =>
    intro r j r1 h
    simp only [sampleNeg] at h
    by_cases hmem : (rngBelow r nI).1 ∈ pos
    · rw [if_pos hmem] at h
      exact ih _ _ _ h
    · rw [if_neg hmem] at h
      obtain ⟨hj, _⟩ := Prod.mk.injEq .. ▸ (Option.some.injEq _ _ ▸ h)
      constructor
      · intro hn
        rw [← hj]
        exact Nat.mod_lt _ hn
      · rw [← hj]; exact hmem

theorem sampleNegs_some (nI : ℕ) (pos : List ℕ) (fuel : ℕ) :
    ∀ (n : ℕ) (r : RNG) (js : List ℕ) (r2 : RNG),
      sampleNegs nI pos fuel n r = some (js, r2) →
        ∀ j ∈ js, (0 < nI → j < nI) ∧ j ∉ pos := by
  intro n
  induction n with
  | zero =>
    intro r js r2 h j hj
    simp [sampleNegs] at h
    rw [h.1] at hj
    simp at hj
  | succ m ih =>
    intro r js r2 h j hj
    simp only [sampleNegs] at h
    rcases h1 : sampleNeg nI pos fuel r with _ | ⟨j1, rA⟩
    · rw [h1] at h; simp at h
    · rw [h1] at h
      dsimp only at h
      rcases h2 : sampleNegs nI pos fuel m rA with _ | ⟨js1, rB⟩
      · rw [h2] at h; simp at h
      · rw [h2] at h
        simp only [Option.some.injEq, Prod.mk.injEq] at h
        rw [← h.1] at hj
        rcases List.mem_cons.mp hj with hl | hr
        · exact hl ▸ sampleNeg_some nI pos fuel r j1 rA h1
        · exact ih rA js1 rB h2 j hr

theorem pickOut_mem {α : Type} (xs : List α) (k : ℕ) (a : α) (rest : List α)
    (h : pickOut xs k = some (a, rest)) : a ∈ xs ∧ ∀ x ∈ rest, x ∈ xs := by
  simp only [pickOut] at h
  rcases hg : xs.get? k with _ | b
  · rw [hg] at h; simp at h
  · rw [hg] at h
    simp only [Option.some.injEq, Prod.mk.injEq] at h
    constructor
    · rw [← h.1]
      exact List.get?_mem hg
    · intro x hx
      rw [← h.2] at hx
      exact List.mem_of_mem_eraseIdx hx

theorem shuffleGo_subset {α : Type} :
    ∀ (n : ℕ) (r : RNG) (xs : List α) (x : α),
      x ∈ (shuffleGo n r xs).1 → x ∈ xs := by
  intro n
  induction n with
  | zero => intro r xs x hx; simpa [shuffleGo] using hx
  | succ m ih =>
    intro r xs x hx
    simp only [shuffleGo] at hx
    rcases hp : pickOut xs (rngBelow r xs.length).1 with _ | ⟨a, rest⟩
    · rw [hp] at hx; exact hx
    · rw [hp] at hx
      dsimp only at hx
      rcases List.mem_cons.mp hx with hl | hr
      · exact hl ▸ (pickOut_mem xs _ a rest hp).1
      · exact (pickOut_mem xs _ a rest hp).2 x (ih _ rest x hr)

theorem chunkGo_subset {α : Type} (bs : ℕ) :
    ∀ (n : ℕ) (l : List α), ∀ b ∈ chunkGo bs n l, ∀ x ∈ b, x ∈ l := by
  intro n
  induction n with
  | zero =>
    intro l b hb x hx
    cases l with
    | nil => simp [chunkGo] at hb
    | cons y ys =>
      rw [chunkGo] at hb
      rcases List.mem_cons.mp hb with hl1 | hr1
      · exact hl1 ▸ hx
      · simp at hr1
  | succ m ih =>
    intro l b hb x hx
    cases l with
    | nil => simp [chunkGo] at hb
    | cons y ys =>
      rw [chunkGo] at hb
      rcases List.mem_cons.mp hb with hl1 | hr1
      · exact hl1 ▸ hx |> List.mem_of_mem_take
      · exact List.mem_of_mem_drop (ih _ b hr1 x hx)

theorem chunk_subset {α : Type} (bs : ℕ) (l : List α) :
    ∀ b ∈ chunk bs l, ∀ x ∈ b, x ∈ l :=
  chunkGo_subset bs l.length l

theorem trainRows_negInv (d : NCFData) (n_neg fuel : ℕ) :
    ∀ (ts : List Rating) (r : RNG) (rows : List Interaction) (r2 : RNG),
      trainRows d n_neg fuel r ts = some (rows, r2) →
        ∀ t ∈ rows, t.label = 0 →
          (0 < nItems d → t.item < nItems d) ∧
          t.item ∉ positiveSet d.train t.user := by
  intro ts
  induction ts with
  | nil =>
    intro r rows r2 h t ht h0
    simp [trainRows] at h
    rw [h.1] at ht
    simp at ht
  | cons q qs ih =>
    intro r rows r2 h t ht h0
    simp only [trainRows] at h
    rcases h1 : sampleNegs (nItems d) (positiveSet d.train q.userID) fuel n_neg r
      with _ | ⟨js, rA⟩
    · rw [h1] at h; simp at h
    · rw [h1] at h
      dsimp only at h
      rcases h2 : trainRows d n_neg fuel rA qs with _ | ⟨rest, rB⟩
      · rw [h2] at h; simp at h
      · rw [h2] at h
        simp only [Option.some.injEq, Prod.mk.injEq] at h
        rw [← h.1] at ht
        rcases List.mem_append.mp ht with hx | hr
        · rcases List.mem_cons.mp hx with hl | hm
          · rw [hl] at h0; simp at h0
          · obtain ⟨j, hj, hjt⟩ := List.mem_map.mp hm
            have hspec := sampleNegs_some (nItems d) (positiveSet d.train q.userID)
              fuel n_neg r js rA h1 j hj
            rw [← hjt]
            exact hspec
        · exact ih rA rest rB h2 t hr h0

theorem testSamples_negInv (d : NCFData) (n_neg fuel : ℕ) :
    ∀ (ts : List Rating) (r : RNG) (sams : List (List Interaction)) (r2 : RNG),
      testSamples d n_neg fuel r ts = some (sams, r2) →
        ∀ s ∈ sams, ∀ t ∈ s, t.label = 0 →
          (0 < nItems d → t.item < nItems d) ∧
          t.item ∉ positiveSet d.train t.user := by
  intro ts
  induction ts with
  | nil =>
    intro r sams r2 h s hs t ht h0
    simp [testSamples] at h
    rw [h.1] at hs
    simp at hs
  | cons q qs ih =>
    intro r sams r2 h s hs t ht h0
    simp only [testSamples] at h
    rcases h1 : sampleNegs (nItems d) (positiveSet d.train q.userID) fuel n_neg r
      with _ | ⟨js, rA⟩
    · rw [h1] at h; simp at h
    · rw [h1] at h
      dsimp only at h
      rcases h2 : testSamples d n_neg fuel rA qs with _ | ⟨rest, rB⟩
      · rw [h2] at h; simp at h
      · rw [h2] at h
        simp only [Option.some.injEq, Prod.mk.injEq] at h
        rw [← h.1] at hs
        rcases List.mem_cons.mp hs with hl | hr
        · rw [hl] at ht
          rcases List.mem_cons.mp ht with hx | hy
          · rw [hx] at h0; simp at h0
          · obtain ⟨j, hj, hjt⟩ := List.mem_map.mp hy
            have hspec := sampleNegs_some (nItems d) (positiveSet d.train q.userID)
              fuel n_neg r js rA h1 j hj
            rw [← hjt]
            exact hspec
        · exact ih rA rest rB h2 s hr t ht h0

theorem testSamples_shape (d : NCFData) (n_neg fuel : ℕ) :
    ∀ (ts : List Rating) (r : RNG) (sams : List (List Interaction)) (r2 : RNG),
      testSamples d n_neg fuel r ts = some (sams, r2) →
        ∀ s ∈ sams, s ≠ [] ∧ (s.headD ⟨0, 0, 0⟩).label = 1 ∧
          ∀ t ∈ s.tail, t.label = 0 := by
  intro ts
  induction ts with
  | nil =>
    intro r sams r2 h s hs
    simp [testSamples] at h
    rw [h.1] at hs
    simp at hs
  | cons q qs ih =>
    intro r sams r2 h s hs
    simp only [testSamples] at h
    rcases h1 : sampleNegs (nItems d) (positiveSet d.train q.userID) fuel n_neg r
      with _ | ⟨js, rA⟩
    · rw [h1] at h; simp at h
    · rw [h1] at h
      dsimp only at h
      rcases h2 : testSamples d n_neg fuel rA qs with _ | ⟨rest, rB⟩
      · rw [h2] at h; simp at h
      · rw [h2] at h
        simp only [Option.some.injEq, Prod.mk.injEq] at h
        rw [← h.1] at hs
        rcases List.mem_cons.mp hs with hl | hr
        · refine hl ▸ ⟨by simp, by simp, ?_⟩
          intro t ht
          simp only [List.tail_cons] at ht
          obtain ⟨j, _, hjt⟩ := List.mem_map.mp ht
          rw [← hjt]
        · exact ih rA rest rB h2 s hr

theorem mem_positiveSet (train : List Rating) (u i : ℕ) :
    i ∈ positiveSet train u ↔ ∃ t ∈ train, t.userID = u ∧ t.itemID = i := by
  simp only [positiveSet, List.mem_map, List.mem_filter, beq_iff_eq]
  tauto

theorem lookupRating_none_iff (train : List Rating) (u i : ℕ) :
    lookupRating train u i = none ↔ i ∉ positiveSet train u := by
  rw [lookupRating, Option.map_eq_none', List.find?_eq_none]
  constructor
  · intro h hmem
    obtain ⟨t, ht, hu, hi⟩ := (mem_positiveSet train u i).mp hmem
    have hb := h t ht
    simp [hu, hi] at hb
  · intro h t ht
    simp only [Bool.and_eq_true, beq_iff_eq, not_and]
    intro hu hi
    exact absurd ((mem_positiveSet train u i).mpr ⟨t, ht, hu, hi⟩) h

theorem mem_allPredictions (train : List Rating) (score : ℕ → ℕ → ℚ)
    (u i : ℕ) (p : ℚ) :
    (u, i, p) ∈ allPredictions train score ↔
      u ∈ uniqueUsers train ∧ i ∈ uniqueItems train ∧
      i ∉ positiveSet train u ∧ p = score u i := by
  simp only [allPredictions, List.mem_map, List.mem_filter, mergedPredictions,
    List.mem_flatMap, Option.isNone_iff_eq_none, Prod.mk.injEq]
  constructor
  · rintro ⟨⟨u1, i1, p1, ro⟩, ⟨⟨u2, hu2, ⟨i2, hi2, heq⟩⟩, hnone⟩, hu, hi, hp⟩
    simp only [Prod.mk.injEq] at heq
    obtain ⟨e1, e2, e3, e4⟩ := heq
    simp only at hu hi hp hnone
    subst hu hi hp
    rw [← e1, ← e2] at *
    refine ⟨e1 ▸ hu2, e2 ▸ hi2, ?_, by rw [← e3]⟩
    rw [← lookupRating_none_iff]
    rw [← e4] at hnone
    exact hnone
  · rintro ⟨hu, hi, hpos, hp⟩
    refine ⟨(u, i, score u i, lookupRating train u i),
      ⟨⟨u, hu, ⟨i, hi, rfl⟩⟩, (lookupRating_none_iff train u i).mpr hpos⟩,
      rfl, rfl, hp.symm⟩

theorem allPredictions_row (train : List Rating) (score : ℕ → ℕ → ℚ)
    (x : ℕ × ℕ × ℚ) (hx : x ∈ allPredictions train score) :
    x.2.2 = score x.1 x.2.1 ∧ x.2.1 ∉ positiveSet train x.1 := by
  obtain ⟨u, i, p⟩ := x
  have h := (mem_allPredictions train score u i p).mp hx
  exact ⟨h.2.2.2, h.2.2.1⟩

theorem insertDesc_perm (x : ℕ × ℕ × ℚ) (l : List (ℕ × ℕ × ℚ)) :
    (insertDesc x l).Perm (x :: l) := by
  induction l with
  | nil => simp [insertDesc]
  | cons y ys ih =>
    rw [insertDesc]
    by_cases h : y.2.2 ≤ x.2.2
    · rw [if_pos h]
    · rw [if_neg h]
      exact (List.Perm.cons y ih).trans (List.Perm.swap x y ys)

theorem insertDesc_sorted (x : ℕ × ℕ × ℚ) (l : List (ℕ × ℕ × ℚ))
    (hl : sortedDesc l) : sortedDesc (insertDesc x l) := by
  induction l with
  | nil => simp [insertDesc, sortedDesc]
  | cons y ys ih =>
    rw [insertDesc]
    rw [sortedDesc, List.pairwise_cons] at hl
    by_cases h : y.2.2 ≤ x.2.2
    · rw [if_pos h]
      rw [sortedDesc, List.pairwise_cons]
      refine ⟨?_, List.Pairwise.cons hl.1 hl.2⟩
      intro b hb
      rcases List.mem_cons.mp hb with hby | hbys
      · exact hby ▸ h
      · exact le_trans (hl.1 b hbys) h
    · rw [if_neg h]
      rw [sortedDesc, List.pairwise_cons]
      refine ⟨?_, ih hl.2⟩
      intro b hb
      rcases List.mem_cons.mp ((insertDesc_perm x ys).mem_iff.mp hb) with hbx | hbys
      · exact hbx ▸ le_of_lt (lt_of_not_le h)
      · exact hl.1 b hbys

theorem rankDesc_perm (l : List (ℕ × ℕ × ℚ)) : (rankDesc l).Perm l := by
  induction l with
  | nil => simp [rankDesc]
  | cons x xs ih =>
    rw [rankDesc]
    exact (insertDesc_perm x (rankDesc xs)).trans (List.Perm.cons x ih)

theorem rankDesc_sorted (l : List (ℕ × ℕ × ℚ)) : sortedDesc (rankDesc l) := by
  induction l with
  | nil => simp [rankDesc, sortedDesc]
  | cons x xs ih =>
    rw [rankDesc]
    exact insertDesc_sorted x (rankDesc xs) ih

theorem sigmoid_pos (x : ℝ) : 0 < sigmoid x := by
  rw [sigmoid]
  positivity

theorem sigmoid_lt_one (x : ℝ) : sigmoid x < 1 := by
  rw [sigmoid]
  rw [div_lt_one (by positivity)]
  have h := Real.exp_pos (-x)
  linarith

theorem loadModel_saveModel (m : NCFModel) : loadModel (saveModel m) = m := rfl

/-! ### Claim theorems -/

/-- C1: the claim states the per-sample NDCG@K contribution is
1/log2(rank+1), equal to 1 at rank 1.  The notebook's loop instead
appends `1 / np.log(rank + 1)` with the natural logarithm: on the
spec's own scenario (scores 0.9, 0.2, 0.4, positive first, so rank = 1,
K = 10) the appended contribution is 1/ln 2 ≈ 1.4427, which is not 1 —
the code diverges from the claimed metric. -/
theorem claim_C1_ndcg_uses_natural_log :
    (looStep 10 ([], []) [9/10, 1/5, 2/5]).1 = [1 / Real.log 2] ∧
    (1 : ℝ) / Real.log 2 ≠ 1 := by
  have hrank : looRank [9/10, 1/5, 2/5] = 1 := by
    norm_num [looRank, List.countP, List.countP.go]
  constructor
  · simp only [looStep, hrank]
    norm_num
  · have hlt : Real.log 2 < 1 := lt_trans Real.log_two_lt_d9 (by norm_num)
    have hpos : 0 < Real.log 2 := Real.log_pos (by norm_num)
    intro h
    rw [div_eq_one_iff_eq (ne_of_gt hpos)] at h
    exact absurd h.symm (ne_of_lt hlt)

/-- C6: every sample's Hit Ratio@K contribution is 1 when its rank is at
most K and 0 otherwise, and the reported HR and NDCG are the arithmetic
means of the per-sample contributions over all samples. -/
theorem claim_C6_hit_and_means (k : ℕ) (outputs : List (List ℚ))
    (h : outputs ≠ []) :
    looEval k outputs =
      (some (((outputs.map fun o =>
          if looRank o ≤ k then 1 / Real.log ((looRank o : ℝ) + 1) else 0).sum)
        / (outputs.length : ℝ)),
       some (((outputs.map fun o =>
          if looRank o ≤ k then (1 : ℚ) else 0).sum)
        / (outputs.length : ℚ))) := by
  simp only [looEval, foldl_looStep, List.nil_append, npMeanR, npMeanQ,
    List.isEmpty_iff, List.map_eq_nil_iff, List.length_map]
  rw [if_neg h, if_neg h]

/-- C10: on an empty held-out test set the loop body never runs, so the
reported HR and NDCG are `np.mean` of empty lists — the NaN condition
(modelled `none`), not 0 and not an error. -/
theorem claim_C10_empty_test (k : ℕ) : looEval k [] = (none, none) := rfl

/-- C7: saving a model and loading the checkpoint back reproduces
predictions identical to the original model on every probe set of
(user, item) pairs — the checkpoint round-trips every parameter that
the forward pass reads. -/
theorem claim_C7_roundtrip (m : NCFModel) (probe : List (ℕ × ℕ)) :
    probe.map (fun p => forwardScore (loadModel (saveModel m)) p.1 p.2) =
    probe.map (fun p => forwardScore m p.1 p.2) := by
  rw [loadModel_saveModel]

/-- C8: for every architecture variant and every pair of indices the
fusion head's forward score — a sigmoid — lies strictly in (0, 1). -/
theorem claim_C8_score_in_open_unit (m : NCFModel) (u i : ℕ) :
    0 < forwardScore m u i ∧ forwardScore m u i < 1 := by
  cases hm : m.mtype <;>
    simp only [forwardScore, hm] <;>
    exact ⟨sigmoid_pos _, sigmoid_lt_one _⟩

/-- C2: every EvaluationSample from `test_loader` is the positive triple
followed by label-0 negatives, and the leave-one-out rank of the
positive over any predicted scores equals 1 plus the number of other
scores in the sample that are at least the positive's score — ties
count against the positive. -/
theorem claim_C2_rank_formula (d : NCFData) (n_neg fuel : ℕ)
    (sams : List (List Interaction)) (s : List Interaction)
    (score : ℕ → ℕ → ℚ)
    (h : testLoader d n_neg fuel = some sams) (hs : s ∈ sams) :
    s ≠ [] ∧ (s.headD ⟨0, 0, 0⟩).label = 1 ∧
    (s.tail.all fun t => t.label == 0) = true ∧
    looRank (s.map fun t => score t.user t.item) =
      1 + s.tail.countP (fun t =>
        decide (score (s.headD ⟨0, 0, 0⟩).user (s.headD ⟨0, 0, 0⟩).item ≤
          score t.user t.item)) := by
  rw [testLoader] at h
  rcases hts : testSamples d n_neg fuel ⟨d.seed⟩ d.test with _ | ⟨sams1, r2⟩
  · rw [hts] at h; simp at h
  · rw [hts] at h
    simp only [Option.map_some', Option.some.injEq] at h
    have hshape := testSamples_shape d n_neg fuel d.test ⟨d.seed⟩ sams1 r2 hts s
      (by rw [h]; exact hs)
    obtain ⟨hne, hhead, htail⟩ := hshape
    refine ⟨hne, hhead, ?_, ?_⟩
    · rw [List.all_eq_true]
      intro t ht
      exact beq_iff_eq.mpr (htail t ht)
    · cases s with
      | nil => exact absurd rfl hne
      | cons x xs =>
        simp only [List.map_cons, List.headD_cons, List.tail_cons]
        rw [looRank_cons, List.countP_map]
        rfl

/-- C3: in the full-ranking protocol a pair (u, i, score u i) is a scored
candidate row exactly when u is a training user, i a training item, and
i is outside u's training PositiveSet; every candidate row carries the
model's score for its pair and an item its user never interacted with;
and ranking the candidates descending by score yields a sorted
permutation of them, over which the external metric helpers are run
against the held-out test positives. -/
theorem claim_C3_candidate_set (train : List Rating) (score : ℕ → ℕ → ℚ)
    (u i : ℕ) (x : ℕ × ℕ × ℚ) (hx : x ∈ allPredictions train score) :
    ((u, i, score u i) ∈ allPredictions train score ↔
      u ∈ uniqueUsers train ∧ i ∈ uniqueItems train ∧
        i ∉ positiveSet train u) ∧
    x.2.2 = score x.1 x.2.1 ∧
    x.2.1 ∉ positiveSet train x.1 ∧
    sortedDesc (rankDesc (allPredictions train score)) ∧
    (rankDesc (allPredictions train score)).Perm (allPredictions train score) := by
  refine ⟨?_, (allPredictions_row train score x hx).1,
    (allPredictions_row train score x hx).2, rankDesc_sorted _, rankDesc_perm _⟩
  constructor
  · intro hm
    have hh := (mem_allPredictions train score u i (score u i)).mp hm
    exact ⟨hh.1, hh.2.1, hh.2.2.1⟩
  · intro ⟨h1, h2, h3⟩
    exact (mem_allPredictions train score u i (score u i)).mpr ⟨h1, h2, h3, rfl⟩

/-- C4: for alpha in [0,1], loading pretrained single-branch checkpoints
into a fused model restores the bilinear branch from the GMF checkpoint
and the deep branch from the MLP checkpoint and sets the fused output
vector to concat(alpha * h_gmf, (1-alpha) * h_mlp); at alpha = 1 the
fused vector is the bilinear output vector with a zero deep half, at
alpha = 0 the deep output vector with a zero bilinear half. -/
theorem claim_C4_blend (gmf mlp : SavedParams) (alpha : ℝ)
    (h0 : 0 ≤ alpha) (h1 : alpha ≤ 1) :
    (loadNeuMF gmf mlp alpha).gmfUserEmb = gmf.gmfUserEmb ∧
    (loadNeuMF gmf mlp alpha).gmfItemEmb = gmf.gmfItemEmb ∧
    (loadNeuMF gmf mlp alpha).mlpUserEmb = mlp.mlpUserEmb ∧
    (loadNeuMF gmf mlp alpha).mlpItemEmb = mlp.mlpItemEmb ∧
    (loadNeuMF gmf mlp alpha).mlpLayers = mlp.mlpLayers ∧
    (loadNeuMF gmf mlp alpha).hOut =
      gmf.hOut.map (fun x => alpha * x) ++
      mlp.hOut.map (fun x => (1 - alpha) * x) ∧
    (loadNeuMF gmf mlp 1).hOut = gmf.hOut ++ mlp.hOut.map (fun _ => 0) ∧
    (loadNeuMF gmf mlp 0).hOut = gmf.hOut.map (fun _ => 0) ++ mlp.hOut := by
  refine ⟨rfl, rfl, rfl, rfl, rfl, rfl, ?_, ?_⟩
  · simp [loadNeuMF]
  · simp [loadNeuMF]

/-- C9: the loaders are deterministic functions of the training table,
the test table and the seed — two Dataset constructions agreeing on
those three produce identical batch and sample sequences for the same
loader arguments. -/
theorem claim_C9_seed_determinism (d1 d2 : NCFData)
    (batchSize n_neg fuel : ℕ) (sh : Bool)
    (h1 : d1.train = d2.train) (h2 : d1.test = d2.test)
    (h3 : d1.seed = d2.seed) :
    trainLoader d1 batchSize n_neg fuel sh =
      trainLoader d2 batchSize n_neg fuel sh ∧
    testLoader d1 n_neg fuel = testLoader d2 n_neg fuel := by
  have hd : d1 = d2 := by
    cases d1; cases d2; simp_all
  rw [hd]
  exact ⟨rfl, rfl⟩

/-- C5: every negative item index produced by the sampler — in training
batches and in leave-one-out evaluation samples alike — is a valid item
index and lies outside its user's training PositiveSet; the exclusion
is exact. -/
theorem claim_C5_negatives_excluded (d : NCFData)
    (batchSize n_neg fuel : ℕ) (sh : Bool)
    (batches sams : List (List Interaction)) (b s : List Interaction)
    (t : Interaction)
    (hn : 0 < nItems d)
    (htr : trainLoader d batchSize n_neg fuel sh = some batches)
    (hte : testLoader d n_neg fuel = some sams)
    (hmem : (b ∈ batches ∧ t ∈ b ∧ t.label = 0) ∨
            (s ∈ sams ∧ t ∈ s ∧ t.label = 0)) :
    t.item < nItems d ∧ t.item ∉ positiveSet d.train t.user := by
  rcases hmem with ⟨hb, htb, h0⟩ | ⟨hsam, hts, h0⟩
  · rw [trainLoader] at htr
    rcases h1 : trainRows d n_neg fuel ⟨d.seed⟩ d.train with _ | ⟨rows, r1⟩
    · rw [h1] at htr; simp at htr
    · rw [h1] at htr
      dsimp only at htr
      simp only [Option.some.injEq] at htr
      rw [← htr] at hb
      have hrows : t ∈ (if sh then (shuffleGo rows.length r1 rows).1 else rows) :=
        chunk_subset batchSize _ b hb t htb
      have hmemrows : t ∈ rows := by
        by_cases hcase : sh
        · rw [if_pos hcase] at hrows
          exact shuffleGo_subset rows.length r1 rows t hrows
        · rw [if_neg hcase] at hrows
          exact hrows
      obtain ⟨himp, hexc⟩ :=
        trainRows_negInv d n_neg fuel d.train ⟨d.seed⟩ rows r1 h1 t hmemrows h0
      exact ⟨himp hn, hexc⟩
  · rw [testLoader] at hte
    rcases h1 : testSamples d n_neg fuel ⟨d.seed⟩ d.test with _ | ⟨sams1, r2⟩
    · rw [h1] at hte; simp at hte
    · rw [h1] at hte
      simp only [Option.map_some', Option.some.injEq] at hte
      obtain ⟨himp, hexc⟩ :=
        testSamples_negInv d n_neg fuel d.test ⟨d.seed⟩ sams1 r2 h1 s
          (by rw [hte]; exact hsam) t hts h0
      exact ⟨himp hn, hexc⟩

/-! ### Witnesses -/

/-- Witness for C2: the concrete dataset with training rows (0,0) and
(1,1) and held-out positive (0,1), seed 0, two negatives per positive —
the loader emits one sample with the positive first, and the rank
formula is exercised with score(u, i) = u + i. -/
theorem claim_C2_rank_formula_witness :
    testLoader ⟨[⟨0, 0, 5⟩, ⟨1, 1, 4⟩], [⟨0, 1, 3⟩], 0⟩ 2 5 =
      some [[⟨0, 1, 1⟩, ⟨0, 1, 0⟩, ⟨0, 1, 0⟩]] ∧
    ([(⟨0, 1, 1⟩ : Interaction), ⟨0, 1, 0⟩, ⟨0, 1, 0⟩] ∈
      [[(⟨0, 1, 1⟩ : Interaction), ⟨0, 1, 0⟩, ⟨0, 1, 0⟩]]) ∧
    (([(⟨0, 1, 1⟩ : Interaction), ⟨0, 1, 0⟩, ⟨0, 1, 0⟩] : List Interaction) ≠ [] ∧
     (([(⟨0, 1, 1⟩ : Interaction), ⟨0, 1, 0⟩, ⟨0, 1, 0⟩].headD ⟨0, 0, 0⟩).label = 1) ∧
     (([(⟨0, 1, 1⟩ : Interaction), ⟨0, 1, 0⟩, ⟨0, 1, 0⟩].tail.all
        fun t => t.label == 0) = true) ∧
     looRank ([(⟨0, 1, 1⟩ : Interaction), ⟨0, 1, 0⟩, ⟨0, 1, 0⟩].map
        fun t => ((t.user + t.item : ℕ) : ℚ)) =
      1 + [(⟨0, 1, 1⟩ : Interaction), ⟨0, 1, 0⟩, ⟨0, 1, 0⟩].tail.countP (fun t =>
        decide (((([(⟨0, 1, 1⟩ : Interaction), ⟨0, 1, 0⟩, ⟨0, 1, 0⟩].headD
            ⟨0, 0, 0⟩).user +
          ([(⟨0, 1, 1⟩ : Interaction), ⟨0, 1, 0⟩, ⟨0, 1, 0⟩].headD
            ⟨0, 0, 0⟩).item : ℕ) : ℚ) ≤ ((t.user + t.item : ℕ) : ℚ)))) :=
  ⟨by decide, by decide,
   claim_C2_rank_formula ⟨[⟨0, 0, 5⟩, ⟨1, 1, 4⟩], [⟨0, 1, 3⟩], 0⟩ 2 5
     [[⟨0, 1, 1⟩, ⟨0, 1, 0⟩, ⟨0, 1, 0⟩]] [⟨0, 1, 1⟩, ⟨0, 1, 0⟩, ⟨0, 1, 0⟩]
     (fun u i => ((u + i : ℕ) : ℚ)) (by decide) (by decide)⟩

/-- Witness for C3: a three-row training table with users 1 and 2 and
items 10 and 11; the only candidate pair is (2, 11) — the one
cross-product pair outside the training table — scored with
score(u, i) = u * i. -/
theorem claim_C3_candidate_set_witness :
    (((2 : ℕ), (11 : ℕ), ((22 : ℕ) : ℚ)) ∈
      allPredictions [⟨1, 10, 5⟩, ⟨1, 11, 4⟩, ⟨2, 10, 3⟩]
        (fun u i => ((u * i : ℕ) : ℚ))) ∧
    ((((2 : ℕ), (11 : ℕ), (((2 * 11 : ℕ)) : ℚ)) ∈
        allPredictions [⟨1, 10, 5⟩, ⟨1, 11, 4⟩, ⟨2, 10, 3⟩]
          (fun u i => ((u * i : ℕ) : ℚ)) ↔
      2 ∈ uniqueUsers [⟨1, 10, 5⟩, ⟨1, 11, 4⟩, ⟨2, 10, 3⟩] ∧
      11 ∈ uniqueItems [⟨1, 10, 5⟩, ⟨1, 11, 4⟩, ⟨2, 10, 3⟩] ∧
      11 ∉ positiveSet [⟨1, 10, 5⟩, ⟨1, 11, 4⟩, ⟨2, 10, 3⟩] 2) ∧
     ((22 : ℕ) : ℚ) = ((2 * 11 : ℕ) : ℚ) ∧
     (11 : ℕ) ∉ positiveSet [⟨1, 10, 5⟩, ⟨1, 11, 4⟩, ⟨2, 10, 3⟩] 2 ∧
     sortedDesc (rankDesc (allPredictions [⟨1, 10, 5⟩, ⟨1, 11, 4⟩, ⟨2, 10, 3⟩]
       (fun u i => ((u * i : ℕ) : ℚ)))) ∧
     (rankDesc (allPredictions [⟨1, 10, 5⟩, ⟨1, 11, 4⟩, ⟨2, 10, 3⟩]
       (fun u i => ((u * i : ℕ) : ℚ)))).Perm
       (allPredictions [⟨1, 10, 5⟩, ⟨1, 11, 4⟩, ⟨2, 10, 3⟩]
       (fun u i => ((u * i : ℕ) : ℚ)))) :=
  ⟨by decide,
   claim_C3_candidate_set [⟨1, 10, 5⟩, ⟨1, 11, 4⟩, ⟨2, 10, 3⟩]
     (fun u i => ((u * i : ℕ) : ℚ)) 2 11 (2, 11, ((22 : ℕ) : ℚ)) (by decide)⟩

/-- Witness for C4: blending concrete GMF and MLP checkpoints with
output vectors [1, 2] and [3] at alpha = 1/2. -/
theorem claim_C4_blend_witness :
    ((0 : ℝ) ≤ 1 / 2) ∧ ((1 / 2 : ℝ) ≤ 1) ∧
    ((loadNeuMF ⟨.GMF, [], [], [], [], [], .sigm, [1, 2]⟩
        ⟨.MLP, [], [], [], [], [], .relu, [3]⟩ (1 / 2)).gmfUserEmb =
      (⟨.GMF, [], [], [], [], [], .sigm, [1, 2]⟩ : SavedParams).gmfUserEmb ∧
     (loadNeuMF ⟨.GMF, [], [], [], [], [], .sigm, [1, 2]⟩
        ⟨.MLP, [], [], [], [], [], .relu, [3]⟩ (1 / 2)).gmfItemEmb =
      (⟨.GMF, [], [], [], [], [], .sigm, [1, 2]⟩ : SavedParams).gmfItemEmb ∧
     (loadNeuMF ⟨.GMF, [], [], [], [], [], .sigm, [1, 2]⟩
        ⟨.MLP, [], [], [], [], [], .relu, [3]⟩ (1 / 2)).mlpUserEmb =
      (⟨.MLP, [], [], [], [], [], .relu, [3]⟩ : SavedParams).mlpUserEmb ∧
     (loadNeuMF ⟨.GMF, [], [], [], [], [], .sigm, [1, 2]⟩
        ⟨.MLP, [], [], [], [], [], .relu, [3]⟩ (1 / 2)).mlpItemEmb =
      (⟨.MLP, [], [], [], [], [], .relu, [3]⟩ : SavedParams).mlpItemEmb ∧
     (loadNeuMF ⟨.GMF, [], [], [], [], [], .sigm, [1, 2]⟩
        ⟨.MLP, [], [], [], [], [], .relu, [3]⟩ (1 / 2)).mlpLayers =
      (⟨.MLP, [], [], [], [], [], .relu, [3]⟩ : SavedParams).mlpLayers ∧
     (loadNeuMF ⟨.GMF, [], [], [], [], [], .sigm, [1, 2]⟩
        ⟨.MLP, [], [], [], [], [], .relu, [3]⟩ (1 / 2)).hOut =
      ([1, 2] : List ℝ).map (fun x => (1 / 2 : ℝ) * x) ++
      ([3] : List ℝ).map (fun x => (1 - 1 / 2 : ℝ) * x) ∧
     (loadNeuMF ⟨.GMF, [], [], [], [], [], .sigm, [1, 2]⟩
        ⟨.MLP, [], [], [], [], [], .relu, [3]⟩ 1).hOut =
      ([1, 2] : List ℝ) ++ ([3] : List ℝ).map (fun _ => 0) ∧
     (loadNeuMF ⟨.GMF, [], [], [], [], [], .sigm, [1, 2]⟩
        ⟨.MLP, [], [], [], [], [], .relu, [3]⟩ 0).hOut =
      ([1, 2] : List ℝ).map (fun _ => 0) ++ ([3] : List ℝ)) :=
  ⟨by norm_num, by norm_num,
   claim_C4_blend ⟨.GMF, [], [], [], [], [], .sigm, [1, 2]⟩
     ⟨.MLP, [], [], [], [], [], .relu, [3]⟩ (1 / 2)
     (by norm_num) (by norm_num)⟩

/-- Witness for C5: on the two-user dataset of the C2 witness, the
sampled negative (0, 1, 0) of the first training batch is a valid item
index outside user 0's PositiveSet. -/
theorem claim_C5_negatives_excluded_witness :
    0 < nItems ⟨[⟨0, 0, 5⟩, ⟨1, 1, 4⟩], [⟨0, 1, 3⟩], 0⟩ ∧
    trainLoader ⟨[⟨0, 0, 5⟩, ⟨1, 1, 4⟩], [⟨0, 1, 3⟩], 0⟩ 2 1 5 false =
      some [[⟨0, 0, 1⟩, ⟨0, 1, 0⟩], [⟨1, 1, 1⟩, ⟨1, 0, 0⟩]] ∧
    testLoader ⟨[⟨0, 0, 5⟩, ⟨1, 1, 4⟩], [⟨0, 1, 3⟩], 0⟩ 1 5 =
      some [[⟨0, 1, 1⟩, ⟨0, 1, 0⟩]] ∧
    (([(⟨0, 0, 1⟩ : Interaction), ⟨0, 1, 0⟩] ∈
        [[(⟨0, 0, 1⟩ : Interaction), ⟨0, 1, 0⟩], [⟨1, 1, 1⟩, ⟨1, 0, 0⟩]] ∧
      (⟨0, 1, 0⟩ : Interaction) ∈ [(⟨0, 0, 1⟩ : Interaction), ⟨0, 1, 0⟩] ∧
      (⟨0, 1, 0⟩ : Interaction).label = 0) ∨
     ([(⟨0, 1, 1⟩ : Interaction), ⟨0, 1, 0⟩] ∈
        [[(⟨0, 1, 1⟩ : Interaction), ⟨0, 1, 0⟩]] ∧
      (⟨0, 1, 0⟩ : Interaction) ∈ [(⟨0, 1, 1⟩ : Interaction), ⟨0, 1, 0⟩] ∧
      (⟨0, 1, 0⟩ : Interaction).label = 0)) ∧
    ((⟨0, 1, 0⟩ : Interaction).item <
        nItems ⟨[⟨0, 0, 5⟩, ⟨1, 1, 4⟩], [⟨0, 1, 3⟩], 0⟩ ∧
     (⟨0, 1, 0⟩ : Interaction).item ∉
        positiveSet (NCFData.train ⟨[⟨0, 0, 5⟩, ⟨1, 1, 4⟩], [⟨0, 1, 3⟩], 0⟩)
          (⟨0, 1, 0⟩ : Interaction).user) :=
  ⟨by decide, by decide, by decide, by decide,
   claim_C5_negatives_excluded ⟨[⟨0, 0, 5⟩, ⟨1, 1, 4⟩], [⟨0, 1, 3⟩], 0⟩
     2 1 5 false [[⟨0, 0, 1⟩, ⟨0, 1, 0⟩], [⟨1, 1, 1⟩, ⟨1, 0, 0⟩]]
     [[⟨0, 1, 1⟩, ⟨0, 1, 0⟩]] [⟨0, 0, 1⟩, ⟨0, 1, 0⟩] [⟨0, 1, 1⟩, ⟨0, 1, 0⟩]
     ⟨0, 1, 0⟩ (by decide) (by decide) (by decide) (by decide)⟩

/-- Witness for C6: a single sample whose only score is the positive's —
rank 1, hit contribution 1, and the reported pair is the mean of the
singleton contribution lists. -/
theorem claim_C6_hit_and_means_witness :
    ([[(1 : ℚ)]] : List (List ℚ)) ≠ [] ∧
    looEval 10 [[(1 : ℚ)]] =
      (some ((([[(1 : ℚ)]].map fun o =>
          if looRank o ≤ 10 then 1 / Real.log ((looRank o : ℝ) + 1) else 0).sum)
        / (([[(1 : ℚ)]] : List (List ℚ)).length : ℝ)),
       some ((([[(1 : ℚ)]].map fun o =>
          if looRank o ≤ 10 then (1 : ℚ) else 0).sum)
        / (([[(1 : ℚ)]] : List (List ℚ)).length : ℚ))) :=
  ⟨by decide, claim_C6_hit_and_means 10 [[(1 : ℚ)]] (by decide)⟩

/-- Witness for C9: two identical Dataset constructions over a one-row
train and test table with seed 42 yield identical loader outputs. -/
theorem claim_C9_seed_determinism_witness :
    (⟨[⟨0, 0, 1⟩], [⟨0, 0, 1⟩], 42⟩ : NCFData).train =
      (⟨[⟨0, 0, 1⟩], [⟨0, 0, 1⟩], 42⟩ : NCFData).train ∧
    (⟨[⟨0, 0, 1⟩], [⟨0, 0, 1⟩], 42⟩ : NCFData).test =
      (⟨[⟨0, 0, 1⟩], [⟨0, 0, 1⟩], 42⟩ : NCFData).test ∧
    (⟨[⟨0, 0, 1⟩], [⟨0, 0, 1⟩], 42⟩ : NCFData).seed =
      (⟨[⟨0, 0, 1⟩], [⟨0, 0, 1⟩], 42⟩ : NCFData).seed ∧
    (trainLoader ⟨[⟨0, 0, 1⟩], [⟨0, 0, 1⟩], 42⟩ 2 1 5 true =
       trainLoader ⟨[⟨0, 0, 1⟩], [⟨0, 0, 1⟩], 42⟩ 2 1 5 true ∧
     testLoader ⟨[⟨0, 0, 1⟩], [⟨0, 0, 1⟩], 42⟩ 1 5 =
       testLoader ⟨[⟨0, 0, 1⟩], [⟨0, 0, 1⟩], 42⟩ 1 5) :=
  ⟨rfl, rfl, rfl,
   claim_C9_seed_determinism ⟨[⟨0, 0, 1⟩], [⟨0, 0, 1⟩], 42⟩
     ⟨[⟨0, 0, 1⟩], [⟨0, 0, 1⟩], 42⟩ 2 1 5 true rfl rfl rfl⟩
